import Mathlib

/-!
Shallow embedding of the htmx extension "alpine-interop"
(src/alpine-interop.js) and verification of its specification.

The extension defines three callbacks:
  * transformResponse(text, xhr, elt) : on a JSON response it looks up an
    Alpine handler named by the hx-handle-json attribute on the nearest
    Alpine scope (walking parent elements, stopping before document.body),
    parses the JSON body and invokes the handler; it always returns the
    original response text.
  * handleSwap(swapStyle, target, fragment, settleInfo) : returns true
    (preventing the default swap) exactly when the target carries a
    non-empty hx-handle-json attribute.
  * init : installs a MutationObserver that calls htmx.process on newly
    added element nodes matching one of the selectors
    [hx-get], [hx-post], [hx-put], [hx-delete], [hx-patch], and on each of
    their matching descendants.

The embedding represents DOM elements by an identity plus an attribute
list, the browser context (parent chain, document.body, Alpine.$data,
JSON.parse, whether a handler throws) by an explicit environment, and the
side effects of a call (handler invocations, JSON.parse attempts,
console.error logs, event dispatches) by an explicit effect trace.
-/

/-- JavaScript string `includes`: `pat` occurs as a contiguous substring of
`s`.  Executable (list tails / prefix test). -/
def includesSubstr (s pat : String) : Bool :=
  (s.toList.tails).any (fun t => pat.toList.isPrefixOf t)

/-- JavaScript `String.prototype.split(sep)` on the character list: splits
at every occurrence of the separator character; an empty input gives one
empty group, as in JavaScript. -/
def splitChars (sep : Char) : List Char → List (List Char)
  | [] => [[]]
  | c :: cs =>
    match splitChars sep cs with
    | [] => if c = sep then [[], []] else [[c]]
    | g :: gs => if c = sep then [] :: g :: gs else (c :: g) :: gs

/-- JavaScript `s.split(",")`, producing strings. -/
def jsSplitComma (s : String) : List String :=
  (splitChars ',' s.toList).map (fun g => String.mk g)

/-- JavaScript `String.prototype.trim()`: strip leading and trailing
whitespace (code points up to U+0020, as in the htmx/browser setting where
the attribute values are ASCII). -/
def jsTrim (s : String) : String :=
  String.mk (((s.toList.dropWhile (fun c => c.val ≤ 32)).reverse.dropWhile
    (fun c => c.val ≤ 32)).reverse)

/-- A parsed JSON value as seen by the extension: either the JavaScript
`null` (used for an empty response body) or an opaque parsed value,
identified by a tag chosen by the environment's JSON.parse. -/
inductive JsValue where
  | null : JsValue
  | value : Nat → JsValue
deriving DecidableEq, Repr

/-- An Alpine scope (the object returned by Alpine.$data): its identity and
the set of property names that hold functions
(`typeof alpineData[name] === "function"`). -/
structure Scope where
  sid : Nat
  methods : List String
deriving DecidableEq, Repr

/-- A DOM element, as the extension sees it: a reference identity and its
attribute list.  `getAttribute` returns `none` for an absent attribute
(JavaScript `null`). -/
structure Elem where
  id : Nat
  attrs : List (String × String)
deriving DecidableEq, Repr

/-- element.getAttribute(name): the value of the first attribute with that
name, or `none` when absent. -/
def getAttribute (e : Elem) (name : String) : Option String :=
  (e.attrs.find? (fun p => p.1 == name)).map Prod.snd

/-- The browser context the extension runs in: the parent chain (with
document.body identified by `bodyId` and `fuel` bounding the finite chain
of a real DOM tree), Alpine.$data (which may throw), JSON.parse (which may
throw), and whether invoking a given handler on a given scope throws
(`some msg` = throws with message `msg`). -/
structure Env where
  bodyId : Nat
  fuel : Nat
  parent : Elem → Option Elem
  alpineData : Nat → Except String (Option Scope)
  parse : String → Except String JsValue
  handlerThrows : Nat → String → Option String

/-- One observable side effect of a transformResponse call. -/
inductive Effect where
  /-- console.error with the caught error's message. -/
  | log : String → Effect
  /-- JSON.parse was applied to this text. -/
  | parseAttempt : String → Effect
  /-- handler.call(scope, responseData, elt, ...params): scope identity
  (the `this` binding), handler name, data argument, element identity,
  extra parameters. -/
  | invoke : Nat → String → JsValue → Nat → List String → Effect
  /-- A custom DOM event was dispatched with the given name and payload.
  (The shipped code never produces this effect; the constructor exists so
  its absence is a statement about the code, not about the model.) -/
  | dispatchEvent : String → JsValue → Effect
deriving DecidableEq, Repr

/-- Result of a transformResponse call: the returned text and the trace of
side effects, in order. -/
structure TransformResult where
  text : String
  effects : List Effect
deriving DecidableEq, Repr

/-- The while loop's traversal order:
`while (current && current !== document.body) { ...; current = current.parentElement }`
— the list of elements visited, starting at the given element, following
parentElement, stopping at null or at document.body (body excluded). -/
def walkChain (env : Env) : Nat → Option Elem → List Elem
  | 0, _ => []
  | _ + 1, none => []
  | fuel + 1, some e =>
    if e.id = env.bodyId then []
    else e :: walkChain env fuel (env.parent e)

/-- The elements transformResponse's loop visits when started at `elt`. -/
def ancestorChain (env : Env) (elt : Elem) : List Elem :=
  walkChain env env.fuel (some elt)

/-- The loop body of transformResponse lines 27–35: visit each element of
the chain, call Alpine.$data (propagating a thrown error), and stop at the
first truthy scope that has a function named `hname`. -/
def lookupHandler (env : Env) (hname : String) : List Elem → Except String (Option Scope)
  | [] => .ok none
  | e :: rest =>
    match env.alpineData e.id with
    | .error msg => .error msg
    | .ok none => lookupHandler env hname rest
    | .ok (some sc) =>
      if sc.methods.contains hname then .ok (some sc)
      else lookupHandler env hname rest

/-- transformResponse lines 41–45: the extra parameters, from the
hx-handle-json-params attribute — comma-separated, each trimmed; an absent
or empty (falsy) attribute gives no parameters. -/
def paramsOf (elt : Elem) : List String :=
  match getAttribute elt "hx-handle-json-params" with
  | none => []
  | some s => if s = "" then [] else (jsSplitComma s).map jsTrim

/-- transformResponse (src/alpine-interop.js lines 9–55).  `contentType` is
xhr.getResponseHeader("content-type") (`none` when the header is absent,
defaulted to "" as in the code).  Returns the text handed back to htmx and
the effect trace. -/
def transformResponse (env : Env) (text : String) (contentType : Option String)
    (elt : Elem) : TransformResult :=
  if includesSubstr (contentType.getD "") "application/json" = false then
    ⟨text, []⟩
  else
    match getAttribute elt "hx-handle-json" with
    | none => ⟨text, []⟩
    | some hname =>
      if hname = "" then ⟨text, []⟩
      else
        match lookupHandler env hname (ancestorChain env elt) with
        | .error msg => ⟨text, [.log msg]⟩
        | .ok none => ⟨text, []⟩
        | .ok (some sc) =>
          if text = "" then
            match env.handlerThrows sc.sid hname with
            | some msg =>
              ⟨text, [.invoke sc.sid hname .null elt.id (paramsOf elt), .log msg]⟩
            | none => ⟨text, [.invoke sc.sid hname .null elt.id (paramsOf elt)]⟩
          else
            match env.parse text with
            | .error msg => ⟨text, [.parseAttempt text, .log msg]⟩
            | .ok v =>
              match env.handlerThrows sc.sid hname with
              | some msg =>
                ⟨text, [.parseAttempt text, .invoke sc.sid hname v elt.id (paramsOf elt),
                  .log msg]⟩
              | none =>
                ⟨text, [.parseAttempt text, .invoke sc.sid hname v elt.id (paramsOf elt)]⟩

/-- handleSwap (src/alpine-interop.js lines 56–62): true (prevent the
default swap) exactly when the target's hx-handle-json attribute is truthy
(present and non-empty). -/
def handleSwap (swapStyle : String) (target : Elem) (fragment : String)
    (settleInfo : String) : Bool :=
  match getAttribute target "hx-handle-json" with
  | none => false
  | some hname => if hname = "" then false else true

/-- Modelled from the spec: htmx core (external to this repository) asks
each extension's handleSwap before performing its default swap; a `true`
return means the extension has handled the swap itself.  alpine-interop's
handleSwap mutates nothing, so a prevented swap leaves the target's old
content in place; a `false` return lets htmx swap in the fragment. -/
def swapOutcome (swapStyle : String) (target : Elem) (oldContent fragment : String)
    (settleInfo : String) : String :=
  if handleSwap swapStyle target fragment settleInfo then oldContent else fragment

/-- Whether an effect is a DOM event dispatch. -/
def isDispatch : Effect → Bool
  | .dispatchEvent _ _ => true
  | _ => false

mutual
/-- A DOM node as the MutationObserver callback sees it: an element node
(attributes and children, in document order) or a non-element node
(text, comment, ...). -/
inductive DomNode where
  | element : List (String × String) → DomForest → DomNode
  | textNode : String → DomNode
  | otherNode : DomNode
/-- A list of sibling DOM nodes (an element's childNodes). -/
inductive DomForest where
  | nil : DomForest
  | cons : DomNode → DomForest → DomForest
end

/-- node.nodeType === Node.ELEMENT_NODE. -/
def isElementNode : DomNode → Bool
  | .element _ _ => true
  | _ => false

/-- The attribute selectors of the observer's query:
"[hx-get], [hx-post], [hx-put], [hx-delete], [hx-patch]". -/
def hxSelectors : List String :=
  ["hx-get", "hx-post", "hx-put", "hx-delete", "hx-patch"]

/-- node.matches("[hx-get], [hx-post], [hx-put], [hx-delete], [hx-patch]"):
an element carrying at least one of those attributes. -/
def matchesHx : DomNode → Bool
  | .element attrs _ => attrs.any (fun p => hxSelectors.contains p.1)
  | _ => false

mutual
/-- All proper descendants of a node, in document (pre-)order. -/
def descendants : DomNode → List DomNode
  | .element _ cs => forestNodes cs
  | _ => []
/-- All nodes of a forest together with their descendants, in document
(pre-)order. -/
def forestNodes : DomForest → List DomNode
  | .nil => []
  | .cons c cs => (c :: descendants c) ++ forestNodes cs
end

/-- The observer callback's work for one added node (src/alpine-interop.js
lines 70–85): skip non-element nodes; call htmx.process on the node itself
when it matches the selector, and on every matching descendant
(node.querySelectorAll over the same selector).  Returns the list of nodes
passed to htmx.process, in call order. -/
def processAddedNode : DomNode → List DomNode
  | n@(.element _ _) =>
    (if matchesHx n then [n] else []) ++ (descendants n).filter (fun d => matchesHx d)
  | _ => []

/-- One mutation record's addedNodes, processed in order (the
`if (mutation.addedNodes.length)` guard is a semantic no-op). -/
def mutationCallback (addedNodes : List DomNode) : List DomNode :=
  addedNodes.flatMap processAddedNode

/-- The first scope, walking the chain, whose Alpine data is truthy and has
a function named `hname` — the "nearest Alpine scope" with the handler.
Used to characterize lookupHandler's result. -/
def scopeHit (env : Env) (hname : String) (e : Elem) : Option Scope :=
  match env.alpineData e.id with
  | .ok (some sc) => if sc.methods.contains hname then some sc else none
  | _ => none

/-! Concrete fixtures: a small document (body → container → elt) with an
Alpine scope on the container holding the handler, a scope without it on
the element itself, and a JSON.parse that fails exactly on "!bad". -/

/-- document.body of the fixture document. -/
def bodyW : Elem := ⟨0, []⟩

/-- A container div carrying the Alpine scope that has the handler. -/
def containerW : Elem := ⟨1, []⟩

/-- The element issuing the request: hx-handle-json="handleData",
hx-handle-json-params="1, 2". -/
def eltW : Elem :=
  ⟨2, [("hx-handle-json", "handleData"), ("hx-handle-json-params", "1, 2")]⟩

/-- An element with no hx-handle-json attribute. -/
def eltPlainW : Elem := ⟨3, [("hx-get", "/posts")]⟩

/-- The fixture environment: parent chain elt → container → body, Alpine
scope 9 (without the handler) on the element, scope 7 (with "handleData")
on the container, JSON.parse failing exactly on "!bad" and otherwise
returning an opaque value tagged with the text's length, and no handler
throwing. -/
def envW : Env where
  bodyId := 0
  fuel := 10
  parent := fun e =>
    if e.id = 2 then some containerW
    else if e.id = 3 then some containerW
    else if e.id = 1 then some bodyW
    else none
  alpineData := fun i =>
    if i = 1 then .ok (some ⟨7, ["handleData"]⟩)
    else if i = 2 then .ok (some ⟨9, ["otherMethod"]⟩)
    else .ok none
  parse := fun s =>
    if s = "!bad" then .error "SyntaxError: Unexpected token" else .ok (.value s.length)
  handlerThrows := fun _ _ => none

/-- A fixture added child element carrying hx-post. -/
def dEx : DomNode := .element [("hx-post", "/y")] .nil

/-- A fixture added element carrying hx-get with a text child and dEx. -/
def nEx : DomNode := .element [("hx-get", "/x")] (.cons (.textNode "hello") (.cons dEx .nil))

/-! ### Helper lemmas -/

/-- transformResponse returns the input text in every branch. -/
theorem transformResponse_text_eq (env : Env) (text : String) (ct : Option String)
    (elt : Elem) : (transformResponse env text ct elt).text = text := by
  unfold transformResponse
  repeat' split
  all_goals rfl

/-- When Alpine.$data throws nowhere on the chain, the loop's result is the
first scope on the chain holding the handler. -/
theorem lookupHandler_eq_findSome (env : Env) (hname : String) (chain : List Elem)
    (hok : ∀ e ∈ chain, ∃ o, env.alpineData e.id = Except.ok o) :
    lookupHandler env hname chain = .ok (chain.findSome? (scopeHit env hname)) := by
  induction chain with
  | nil => rfl
  | cons e rest ih =>
    obtain ⟨o, ho⟩ := hok e (List.mem_cons_self e rest)
    have ih2 := ih (fun x hx => hok x (List.mem_cons_of_mem e hx))
    cases o with
    | none =>
      simp [lookupHandler, List.findSome?_cons, scopeHit, ho, ih2]
    | some sc =>
      by_cases hc : hname ∈ sc.methods
      · simp [lookupHandler, List.findSome?_cons, scopeHit, ho, hc]
      · simp [lookupHandler, List.findSome?_cons, scopeHit, ho, hc, ih2]

/-- Any invoke effect of a transformResponse call invokes the handler named
by the element's non-empty hx-handle-json attribute, on that element, with
the parameters read from hx-handle-json-params. -/
theorem invoke_mem_shape (env : Env) (text : String) (ct : Option String) (elt : Elem)
    (sid : Nat) (hn : String) (d : JsValue) (eid : Nat) (ps : List String)
    (hinv : Effect.invoke sid hn d eid ps ∈ (transformResponse env text ct elt).effects) :
    getAttribute elt "hx-handle-json" = some hn ∧ hn ≠ "" ∧
    eid = elt.id ∧ ps = paramsOf elt := by
  by_cases hct : includesSubstr (ct.getD "") "application/json" = false
  · simp [transformResponse, hct] at hinv
  · cases hat : getAttribute elt "hx-handle-json" with
    | none => simp [transformResponse, hct, hat] at hinv
    | some hname =>
      by_cases hne : hname = ""
      · simp [transformResponse, hct, hat, hne] at hinv
      · cases hlk : lookupHandler env hname (ancestorChain env elt) with
        | error msg => simp [transformResponse, hct, hat, hne, hlk] at hinv
        | ok osc =>
          cases osc with
          | none => simp [transformResponse, hct, hat, hne, hlk] at hinv
          | some sc =>
            by_cases htxt : text = ""
            · cases hth : env.handlerThrows sc.sid hname with
              | none =>
                simp [transformResponse, hct, hat, hne, hlk, htxt, hth] at hinv
                obtain ⟨h1, h2, h3, h4, h5⟩ := hinv
                subst h2
                exact ⟨rfl, hne, h4, h5⟩
              | some msg =>
                simp [transformResponse, hct, hat, hne, hlk, htxt, hth] at hinv
                obtain ⟨h1, h2, h3, h4, h5⟩ := hinv
                subst h2
                exact ⟨rfl, hne, h4, h5⟩
            · cases hp : env.parse text with
              | error msg =>
                simp [transformResponse, hct, hat, hne, hlk, htxt, hp] at hinv
              | ok v =>
                cases hth : env.handlerThrows sc.sid hname with
                | none =>
                  simp [transformResponse, hct, hat, hne, hlk, htxt, hp, hth] at hinv
                  obtain ⟨h1, h2, h3, h4, h5⟩ := hinv
                  subst h2
                  exact ⟨rfl, hne, h4, h5⟩
                | some msg =>
                  simp [transformResponse, hct, hat, hne, hlk, htxt, hp, hth] at hinv
                  obtain ⟨h1, h2, h3, h4, h5⟩ := hinv
                  subst h2
                  exact ⟨rfl, hne, h4, h5⟩

/-! ### Claim theorems -/

/-- C9: transformResponse returns its input text unchanged on every path —
non-JSON response, missing hx-handle-json attribute, no handler found,
successful handler invocation, and caught error: the transform is the
identity on the response text. -/
theorem transformResponse_preserves_text (env : Env) (text : String)
    (ct : Option String) (elt : Elem) :
    (transformResponse env text ct elt).text = text :=
  transformResponse_text_eq env text ct elt

/-- C3: a response whose content-type header (the empty string when the
header is absent) does not contain "application/json" is returned
unchanged, with no JSON parse and no handler invocation; contrapositively,
only application/json responses can lead to a handler invocation. -/
theorem transformResponse_ignores_non_json (env : Env) (text : String)
    (ct : Option String) (elt : Elem)
    (h : includesSubstr (ct.getD "") "application/json" = false) :
    transformResponse env text ct elt = ⟨text, []⟩ ∧
    ∀ sid hn d eid ps, Effect.invoke sid hn d eid ps ∉
      (transformResponse env text ct elt).effects := by
  have h1 : transformResponse env text ct elt = ⟨text, []⟩ := by
    unfold transformResponse
    simp [h]
  refine ⟨h1, ?_⟩
  intro sid hn d eid ps
  rw [h1]
  simp

/-- C3 at a concrete input with the content-type header absent: the text
passes through untouched and nothing is invoked. -/
theorem transformResponse_ignores_non_json_witness :
    transformResponse envW "<div>x</div>" none eltW = ⟨"<div>x</div>", []⟩ ∧
    ∀ sid hn d eid ps, Effect.invoke sid hn d eid ps ∉
      (transformResponse envW "<div>x</div>" none eltW).effects :=
  transformResponse_ignores_non_json envW "<div>x</div>" none eltW (by decide)

/-- C8: handleSwap returns true (preventing the default swap) iff the
target has a non-empty hx-handle-json attribute; the result does not
depend on the swap style, fragment or settle info, and consults no Alpine
scope and no response — so the swap is still prevented when the named
handler is never found and the response is silently dropped. -/
theorem handleSwap_characterization (s f i : String) (t : Elem) :
    (handleSwap s t f i = true ↔
      ∃ hname, getAttribute t "hx-handle-json" = some hname ∧ hname ≠ "") ∧
    (∀ s2 f2 i2, handleSwap s t f i = handleSwap s2 t f2 i2) := by
  constructor
  · unfold handleSwap
    cases hat : getAttribute t "hx-handle-json" with
    | none => simp
    | some hname =>
      by_cases hne : hname = "" <;> simp [hne]
  · intro s2 f2 i2
    rfl

/-- C2 counterexample: a concrete application/json response for which the
extension dispatches no DOM event at all — the effect trace consists of
the JSON parse and the Alpine handler invocation, and contains no
dispatchEvent effect (in particular no htmx:jsonResponse event). -/
theorem transformResponse_no_event_cex :
    (transformResponse envW "[1]" (some "application/json") eltW).effects =
      [Effect.parseAttempt "[1]",
        Effect.invoke 7 "handleData" (JsValue.value 3) 2 ["1", "2"]] ∧
    (transformResponse envW "[1]" (some "application/json") eltW).effects.all
      (fun e => !(isDispatch e)) = true := by
  decide

/-- C2 (amended): transformResponse dispatches no custom DOM event on any
response; a JSON payload is delivered only by invoking the Alpine method
named by hx-handle-json. -/
theorem transformResponse_never_dispatches (env : Env) (text : String)
    (ct : Option String) (elt : Elem) :
    (transformResponse env text ct elt).effects.all
      (fun e => !(isDispatch e)) = true := by
  unfold transformResponse
  repeat' split
  all_goals rfl

/-- C4: whenever transformResponse invokes a handler, the requesting
element's hx-handle-json attribute is non-empty, so handleSwap prevents
the default swap on that element (htmx's default swap target is the
requesting element) and the target's content is left unchanged. -/
theorem invoked_handler_prevents_swap (env : Env) (text : String) (ct : Option String)
    (elt : Elem) (s f i old : String)
    (sid : Nat) (hn : String) (d : JsValue) (eid : Nat) (ps : List String)
    (hinv : Effect.invoke sid hn d eid ps ∈ (transformResponse env text ct elt).effects) :
    handleSwap s elt f i = true ∧ swapOutcome s elt old f i = old := by
  obtain ⟨hat, hne, -, -⟩ := invoke_mem_shape env text ct elt sid hn d eid ps hinv
  have hs : handleSwap s elt f i = true := by
    unfold handleSwap
    rw [hat]
    simp [hne]
  refine ⟨hs, ?_⟩
  unfold swapOutcome
  rw [hs]
  simp

/-- C4 at a concrete input: the handler invocation on eltW prevents the
swap and the old content survives. -/
theorem invoked_handler_prevents_swap_witness :
    handleSwap "innerHTML" eltW "<p>new</p>" "settle" = true ∧
    swapOutcome "innerHTML" eltW "old content" "<p>new</p>" "settle" = "old content" :=
  invoked_handler_prevents_swap envW "[1]" (some "application/json") eltW
    "innerHTML" "<p>new</p>" "settle" "old content"
    7 "handleData" (JsValue.value 3) 2 ["1", "2"] (by decide)

/-- C1: for an application/json response on an element whose hx-handle-json
attribute names a method, transformResponse walks from the element up
through its parents (stopping before document.body) and invokes the
method found on the nearest Alpine scope — that scope recorded as the
`this` binding — passing the parsed JSON payload (null for an empty
body), the element, and the optional parameters; the scope is the first
hit on the chain (List.findSome?), so no farther scope is consulted. -/
theorem transformResponse_invokes_nearest_scope (env : Env) (text : String)
    (ct : Option String) (elt : Elem) (hname : String) (sc : Scope)
    (hct : includesSubstr (ct.getD "") "application/json" = true)
    (hattr : getAttribute elt "hx-handle-json" = some hname)
    (hne : hname ≠ "")
    (hok : ∀ e ∈ ancestorChain env elt, ∃ o, env.alpineData e.id = Except.ok o)
    (hfound : (ancestorChain env elt).findSome? (scopeHit env hname) = some sc)
    (hnoth : env.handlerThrows sc.sid hname = none) :
    (text = "" →
      (transformResponse env text ct elt).effects =
        [Effect.invoke sc.sid hname JsValue.null elt.id (paramsOf elt)]) ∧
    (∀ v, text ≠ "" → env.parse text = Except.ok v →
      (transformResponse env text ct elt).effects =
        [Effect.parseAttempt text,
          Effect.invoke sc.sid hname v elt.id (paramsOf elt)]) := by
  have hlk : lookupHandler env hname (ancestorChain env elt) = .ok (some sc) := by
    rw [lookupHandler_eq_findSome env hname _ hok, hfound]
  constructor
  · intro htxt
    simp [transformResponse, hct, hattr, hne, hlk, hnoth, htxt]
  · intro v htxt hv
    simp [transformResponse, hct, hattr, hne, hlk, hnoth, htxt, hv]

/-- C1 at a concrete document (body → container with scope 7 holding
handleData → eltW with scope 9 lacking it): the invocation binds scope 7,
passes the parsed payload, eltW and the parameters; the element's own
scope was consulted first and skipped. -/
theorem transformResponse_invokes_nearest_scope_witness :
    (transformResponse envW "[1]" (some "application/json") eltW).effects =
      [Effect.parseAttempt "[1]",
        Effect.invoke 7 "handleData" (JsValue.value 3) 2 (paramsOf eltW)] := by
  have hok : ∀ e ∈ ancestorChain envW eltW, ∃ o, envW.alpineData e.id = Except.ok o := by
    intro e he
    have hch : ancestorChain envW eltW = [eltW, containerW] := by decide
    rw [hch] at he
    simp only [List.mem_cons, List.not_mem_nil, or_false] at he
    rcases he with rfl | rfl
    · exact ⟨some ⟨9, ["otherMethod"]⟩, rfl⟩
    · exact ⟨some ⟨7, ["handleData"]⟩, rfl⟩
  exact (transformResponse_invokes_nearest_scope envW "[1]" (some "application/json")
    eltW "handleData" ⟨7, ["handleData"]⟩ (by decide) (by decide) (by decide)
    hok (by decide) rfl).2 (JsValue.value 3) (by decide) rfl

/-- C5: if anything throws inside the try block — the Alpine scope lookup,
JSON.parse, or the handler call — transformResponse catches it, logs it
(console.error) and still returns the original text; no error propagates
and the recovery is exactly catch-and-log. -/
theorem transformResponse_catches_errors (env : Env) (text : String)
    (ct : Option String) (elt : Elem) (hname : String)
    (hct : includesSubstr (ct.getD "") "application/json" = true)
    (hattr : getAttribute elt "hx-handle-json" = some hname)
    (hne : hname ≠ "")
    (herr :
      (∃ msg, lookupHandler env hname (ancestorChain env elt) = Except.error msg) ∨
      (∃ sc msg, lookupHandler env hname (ancestorChain env elt) = Except.ok (some sc) ∧
        text ≠ "" ∧ env.parse text = Except.error msg) ∨
      (∃ sc msg, lookupHandler env hname (ancestorChain env elt) = Except.ok (some sc) ∧
        env.handlerThrows sc.sid hname = some msg ∧
        (text = "" ∨ ∃ v, env.parse text = Except.ok v))) :
    (transformResponse env text ct elt).text = text ∧
    ∃ m, Effect.log m ∈ (transformResponse env text ct elt).effects := by
  refine ⟨transformResponse_text_eq env text ct elt, ?_⟩
  rcases herr with ⟨msg, hlk⟩ | ⟨sc, msg, hlk, htxt, hp⟩ | ⟨sc, msg, hlk, hth, hrest⟩
  · exact ⟨msg, by simp [transformResponse, hct, hattr, hne, hlk]⟩
  · exact ⟨msg, by simp [transformResponse, hct, hattr, hne, hlk, htxt, hp]⟩
  · rcases hrest with htxt | ⟨v, hp⟩
    · exact ⟨msg, by simp [transformResponse, hct, hattr, hne, hlk, hth, htxt]⟩
    · by_cases htxt : text = ""
      · exact ⟨msg, by simp [transformResponse, hct, hattr, hne, hlk, hth, htxt]⟩
      · exact ⟨msg, by simp [transformResponse, hct, hattr, hne, hlk, hth, htxt, hp]⟩

/-- C5 at a concrete input: JSON.parse throws on "!bad"; the error is
logged and the original text still comes back. -/
theorem transformResponse_catches_errors_witness :
    (transformResponse envW "!bad" (some "application/json") eltW).text = "!bad" ∧
    ∃ m, Effect.log m ∈
      (transformResponse envW "!bad" (some "application/json") eltW).effects :=
  transformResponse_catches_errors envW "!bad" (some "application/json") eltW
    "handleData" (by decide) (by decide) (by decide)
    (Or.inr (Or.inl ⟨⟨7, ["handleData"]⟩, "SyntaxError: Unexpected token",
      rfl, by decide, rfl⟩))

/-- C6: an invoked handler receives, after the data and the element,
exactly the comma-split, whitespace-trimmed substrings of a non-empty
hx-handle-json-params value, in their original order; with the attribute
absent it receives no extra parameters. -/
theorem invoked_handler_params (env : Env) (text : String) (ct : Option String)
    (elt : Elem) (sid : Nat) (hn : String) (d : JsValue) (eid : Nat) (ps : List String)
    (hinv : Effect.invoke sid hn d eid ps ∈ (transformResponse env text ct elt).effects) :
    (∀ s, getAttribute elt "hx-handle-json-params" = some s → s ≠ "" →
      ps = (jsSplitComma s).map jsTrim) ∧
    (getAttribute elt "hx-handle-json-params" = none → ps = []) := by
  obtain ⟨-, -, -, hps⟩ := invoke_mem_shape env text ct elt sid hn d eid ps hinv
  subst hps
  constructor
  · intro s hs hsne
    unfold paramsOf
    rw [hs]
    simp [hsne]
  · intro hs
    unfold paramsOf
    rw [hs]

/-- C6 at a concrete input: hx-handle-json-params="1, 2" yields parameters
["1", "2"] — split on the comma and trimmed, in order. -/
theorem invoked_handler_params_witness :
    (∀ s, getAttribute eltW "hx-handle-json-params" = some s → s ≠ "" →
      ["1", "2"] = (jsSplitComma s).map jsTrim) ∧
    (getAttribute eltW "hx-handle-json-params" = none → ["1", "2"] = []) :=
  invoked_handler_params envW "[1]" (some "application/json") eltW
    7 "handleData" (JsValue.value 3) 2 ["1", "2"] (by decide)

/-- C10: with a found handler and an empty body, the handler is invoked
with null as the data and no JSON.parse is attempted; conversely a parse
is attempted only for non-empty text and only after a handler has been
found, so responses without a matching handler never incur a parse
attempt or a parse error. -/
theorem empty_body_gives_null_data (env : Env) (text : String) (ct : Option String)
    (elt : Elem) :
    (∀ hname sc, includesSubstr (ct.getD "") "application/json" = true →
      getAttribute elt "hx-handle-json" = some hname → hname ≠ "" →
      lookupHandler env hname (ancestorChain env elt) = Except.ok (some sc) →
      text = "" →
      Effect.invoke sc.sid hname JsValue.null elt.id (paramsOf elt) ∈
          (transformResponse env text ct elt).effects ∧
        ∀ t, Effect.parseAttempt t ∉ (transformResponse env text ct elt).effects) ∧
    (∀ t, Effect.parseAttempt t ∈ (transformResponse env text ct elt).effects →
      text ≠ "" ∧ ∃ hname sc, getAttribute elt "hx-handle-json" = some hname ∧
        lookupHandler env hname (ancestorChain env elt) = Except.ok (some sc)) := by
  constructor
  · intro hname sc hct hattr hne hlk htxt
    cases hth : env.handlerThrows sc.sid hname with
    | none =>
      refine ⟨?_, ?_⟩
      · simp [transformResponse, hct, hattr, hne, hlk, htxt, hth]
      · intro t
        simp [transformResponse, hct, hattr, hne, hlk, htxt, hth]
    | some msg =>
      refine ⟨?_, ?_⟩
      · simp [transformResponse, hct, hattr, hne, hlk, htxt, hth]
      · intro t
        simp [transformResponse, hct, hattr, hne, hlk, htxt, hth]
  · intro t ht
    by_cases hct : includesSubstr (ct.getD "") "application/json" = false
    · simp [transformResponse, hct] at ht
    · cases hat : getAttribute elt "hx-handle-json" with
      | none => simp [transformResponse, hct, hat] at ht
      | some hname =>
        by_cases hne : hname = ""
        · simp [transformResponse, hct, hat, hne] at ht
        · cases hlk : lookupHandler env hname (ancestorChain env elt) with
          | error msg => simp [transformResponse, hct, hat, hne, hlk] at ht
          | ok osc =>
            cases osc with
            | none => simp [transformResponse, hct, hat, hne, hlk] at ht
            | some sc =>
              by_cases htxt : text = ""
              · cases hth : env.handlerThrows sc.sid hname with
                | none => simp [transformResponse, hct, hat, hne, hlk, htxt, hth] at ht
                | some msg => simp [transformResponse, hct, hat, hne, hlk, htxt, hth] at ht
              · exact ⟨htxt, hname, sc, rfl, hlk⟩

/-- C10 at a concrete input: empty body, handler found — invoked with null
data and no parse attempted. -/
theorem empty_body_gives_null_data_witness :
    Effect.invoke 7 "handleData" JsValue.null 2 (paramsOf eltW) ∈
      (transformResponse envW "" (some "application/json") eltW).effects ∧
    ∀ t, Effect.parseAttempt t ∉
      (transformResponse envW "" (some "application/json") eltW).effects :=
  (empty_body_gives_null_data envW "" (some "application/json") eltW).1
    "handleData" ⟨7, ["handleData"]⟩ (by decide) (by decide) (by decide)
    rfl rfl

/-- C7: the MutationObserver callback (installed on document.body with
childList and subtree after DOMContentLoaded) calls htmx.process, for each
added element node, on the node itself when it matches one of [hx-get],
[hx-post], [hx-put], [hx-delete], [hx-patch], and on every matching
descendant; everything it processes matches one of those selectors, so
non-element nodes and elements carrying none of those attributes are
never registered. -/
theorem mutation_observer_processes (added : List DomNode) (n : DomNode)
    (hmem : n ∈ added) (helem : isElementNode n = true) :
    (matchesHx n = true → n ∈ mutationCallback added) ∧
    (∀ d, d ∈ descendants n → matchesHx d = true → d ∈ mutationCallback added) ∧
    (∀ p, p ∈ mutationCallback added → matchesHx p = true) := by
  refine ⟨?_, ?_, ?_⟩
  · intro hm
    unfold mutationCallback
    refine List.mem_flatMap.2 ⟨n, hmem, ?_⟩
    cases n with
    | element attrs cs => simp [processAddedNode, hm]
    | textNode s => simp [isElementNode] at helem
    | otherNode => simp [isElementNode] at helem
  · intro d hd hm
    unfold mutationCallback
    refine List.mem_flatMap.2 ⟨n, hmem, ?_⟩
    cases n with
    | element attrs cs =>
      unfold processAddedNode
      refine List.mem_append.2 (Or.inr ?_)
      exact List.mem_filter.2 ⟨hd, hm⟩
    | textNode s => simp [isElementNode] at helem
    | otherNode => simp [isElementNode] at helem
  · intro p hp
    unfold mutationCallback at hp
    obtain ⟨m, hmm, hpm⟩ := List.mem_flatMap.1 hp
    cases m with
    | element attrs cs =>
      unfold processAddedNode at hpm
      rcases List.mem_append.1 hpm with h1 | h2
      · by_cases hm : matchesHx (DomNode.element attrs cs) = true
        · simp [hm] at h1
          subst h1
          exact hm
        · simp [hm] at h1
      · exact (List.mem_filter.1 h2).2
    | textNode s => simp [processAddedNode] at hpm
    | otherNode => simp [processAddedNode] at hpm

/-- C7 at a concrete mutation: an added hx-get element with a text child
and an hx-post descendant — both elements are processed, and everything
processed matches the selector list. -/
theorem mutation_observer_processes_witness :
    nEx ∈ mutationCallback [nEx] ∧ dEx ∈ mutationCallback [nEx] ∧
    ∀ p, p ∈ mutationCallback [nEx] → matchesHx p = true := by
  have h := mutation_observer_processes [nEx] nEx (List.mem_cons_self nEx [])
    (by decide)
  refine ⟨h.1 (by decide), h.2.1 dEx ?_ (by decide), h.2.2⟩
  have hd : descendants nEx = [DomNode.textNode "hello", dEx] := rfl
  rw [hd]
  exact List.mem_cons_of_mem _ (List.mem_cons_self _ _)
